import Mathlib

/-!
Shallow embedding of two components of the btcd peer-to-peer core:

* `connmgr`'s `DynamicBanScore` (src/connmgr/dynamicbanscore.go): a misbehavior
  score with a persistent `uint32` part and an exponentially decaying `float64`
  transient part.  `uint32` values are modelled as `ℕ` with explicit `% 2^32`
  where Go's unsigned arithmetic can wrap, and `float64` quantities are modelled
  as exact reals (`ℝ`), with Go's `math.Exp`/`math.Ln2` as `Real.exp`/`Real.log 2`.
  Go's float-to-`uint32` truncating conversion is `trunc32` below.

* `txscript`'s `SigCache` (signature verification cache): digests, signatures
  and public keys are opaque values with decidable equality, modelled here as
  `ℕ`; the Go `map` is an association list with unique keys, lookup taking the
  first matching key.  The randomly chosen eviction victim (Go iterates the map
  from a random starting point and deletes the first entry) is supplied as an
  explicit parameter, so theorems quantify over every possible choice of a
  resident victim.
-/

/-! ## SigCache (txscript) -/

/-- Entry of the `SigCache`: the signature and public key stored under a
signature-hash digest (`sigCacheEntry` in the source).  Signatures and keys are
opaque; `ℕ` stands in for them, equality modelling `IsEqual`. -/
structure sigCacheEntry where
  sig : Nat
  pubKey : Nat
deriving DecidableEq, Repr

/-- Removes the binding of key `k` from an association list (the effect of Go's
`delete(m, k)` on a map with unique keys: the first binding of `k` goes away). -/
def mapErase (k : Nat) (l : List (Nat × sigCacheEntry)) : List (Nat × sigCacheEntry) :=
  l.eraseP (fun p => p.1 == k)

/-- Looks a key up in the association list (Go's `m[k]`, comma-ok form). -/
def mapLookup (k : Nat) (l : List (Nat × sigCacheEntry)) : Option sigCacheEntry :=
  l.lookup k

/-- `SigCache` state: the digest-keyed map of validated signatures and the
configured capacity. -/
structure SigCache where
  validSigs : List (Nat × sigCacheEntry)
  maxEntries : Nat
deriving DecidableEq, Repr

/-- `NewSigCache`: fresh cache with the given capacity. -/
def NewSigCache (maxEntries : Nat) : SigCache :=
  ⟨[], maxEntries⟩

/-- `SigCache.Exists`: digest lookup, then on a hit a full comparison of the
public key and the signature, in the source's order
`ok && entry.pubKey.IsEqual(pubKey) && entry.sig.IsEqual(sig)`. -/
def SigCache.Exists (s : SigCache) (sigHash sig pubKey : Nat) : Bool :=
  match mapLookup sigHash s.validSigs with
  | none => false
  | some entry => entry.pubKey == pubKey && entry.sig == sig

/-- `SigCache.Add`: no-op when the capacity is zero; evicts one resident entry
when the insert would exceed the capacity; then stores the entry under its
digest (`s.validSigs[sigHash] = sigCacheEntry{sig, pubKey}`, which overwrites
any existing binding of the digest).  `victim` names the key Go's random map
iteration would delete; faithfulness to the source requires the victim to be
resident, which theorems assume where the eviction branch is reached. -/
def SigCache.Add (s : SigCache) (sigHash sig pubKey victim : Nat) : SigCache :=
  if s.maxEntries ≤ 0 then s
  else
    let m :=
      if s.validSigs.length + 1 > s.maxEntries then mapErase victim s.validSigs
      else s.validSigs
    ⟨(sigHash, ⟨sig, pubKey⟩) :: mapErase sigHash m, s.maxEntries⟩

/-! ## DynamicBanScore (connmgr) -/

open scoped Classical

/-- `Halflife`: seconds for the transient part to decay to half. -/
def Halflife : ℝ := 60

/-- `lambda`: the decay constant `math.Ln2 / Halflife`. -/
noncomputable def lambda : ℝ := Real.log 2 / Halflife

/-- `Lifetime`: maximum age (seconds) at which the transient part still counts. -/
def Lifetime : ℤ := 1800

/-- `precomputedLen`: number of decay factors precomputed at init. -/
def precomputedLen : ℤ := 64

/-- The table filled by `init`: `precomputedFactor[i] = math.Exp(-1.0 * float64(i) * lambda)`.
Modelled as a function on `ℕ`; the source array holds indices `0 ≤ i < 64` and
is only ever read at such indices. -/
noncomputable def precomputedFactor (i : ℕ) : ℝ :=
  Real.exp (-1 * (i : ℝ) * lambda)

/-- `decayFactor`: table lookup below `precomputedLen`, otherwise computed on
demand with the same formula.  The source indexes the array with `t` directly
(callers only pass `0 < t`); `Int.toNat` realises that in-range index. -/
noncomputable def decayFactor (t : ℤ) : ℝ :=
  if t < precomputedLen then precomputedFactor t.toNat
  else Real.exp (-1 * (t : ℝ) * lambda)

/-- `DynamicBanScore` state: last-update Unix time, transient (`float64`) and
persistent (`uint32`, kept `< 2^32` by the modular update) components. -/
structure DynamicBanScore where
  lastUnix : ℤ
  transient : ℝ
  persistent : ℕ

/-- The zero value of `DynamicBanScore`, ready for use upon declaration. -/
def freshBanScore : DynamicBanScore := ⟨0, 0, 0⟩

/-- Go's truncating conversion `uint32(x)` of a nonnegative in-range `float64`;
the `% 2^32` makes the model total where the conversion leaves Go's defined
range. -/
noncomputable def trunc32 (x : ℝ) : ℕ :=
  (⌊x⌋).toNat % 2 ^ 32

/-- `DynamicBanScore.int`: the score at time `t` — the persistent part alone
when the transient is below 1, the elapsed time is negative, or the transient
part has outlived `Lifetime`; otherwise the persistent part plus the decayed
transient, truncated, in `uint32` addition. -/
noncomputable def DynamicBanScore.int (s : DynamicBanScore) (t : ℤ) : ℕ :=
  let dt := t - s.lastUnix
  if s.transient < 1 ∨ dt < 0 ∨ Lifetime < dt then s.persistent
  else (s.persistent + trunc32 (s.transient * decayFactor dt)) % 2 ^ 32

/-- `DynamicBanScore.increase`: adds to the persistent part unconditionally
(`uint32` wrap-around); when the transient delta is nonzero, discards the
stored transient if it outlived `Lifetime`, else decays it when time passed and
it exceeds 1, then adds the delta and advances `lastUnix`.  Returns the updated
state together with the returned score `s.persistent + uint32(s.transient)`. -/
noncomputable def DynamicBanScore.increase (s : DynamicBanScore)
    (persistent transient : ℕ) (t : ℤ) : DynamicBanScore × ℕ :=
  let p := (s.persistent + persistent) % 2 ^ 32
  let dt := t - s.lastUnix
  if 0 < transient then
    let tr :=
      (if Lifetime < dt then 0
       else if 1 < s.transient ∧ 0 < dt then s.transient * decayFactor dt
       else s.transient) + (transient : ℝ)
    (⟨t, tr, p⟩, (p + trunc32 tr) % 2 ^ 32)
  else
    (⟨s.lastUnix, s.transient, p⟩, (p + trunc32 s.transient) % 2 ^ 32)

/-- `DynamicBanScore.Reset`: zeroes all three fields. -/
def DynamicBanScore.Reset (_ : DynamicBanScore) : DynamicBanScore := ⟨0, 0, 0⟩

/-- Runs a sequence of `Add` calls, the eviction victim of each call drawn from
the resident entries by the strategy `pick` (abstracting Go's random map
iteration order). -/
def runAdds (pick : List (Nat × sigCacheEntry) → Nat) :
    SigCache → List (Nat × Nat × Nat) → SigCache
  | c, [] => c
  | c, (d, sg, pk) :: rest => runAdds pick (c.Add d sg pk (pick c.validSigs)) rest

/-- A concrete eviction strategy: the key of the first resident entry. -/
def headKeyPick (l : List (Nat × sigCacheEntry)) : Nat :=
  (l.headD (0, ⟨0, 0⟩)).1

/-! ## Helper lemmas: SigCache -/

theorem mapErase_length_le (k : Nat) (l : List (Nat × sigCacheEntry)) :
    (mapErase k l).length ≤ l.length :=
  List.length_eraseP_le l

theorem mapErase_length_add_one (k : Nat) (l : List (Nat × sigCacheEntry))
    (h : (mapLookup k l).isSome) : (mapErase k l).length + 1 = l.length := by
  unfold mapLookup at h
  rw [List.lookup_isSome_iff] at h
  obtain ⟨p, hp, hk⟩ := h
  exact List.length_eraseP_add_one hp (by simp only [beq_iff_eq] at hk ⊢; omega)

theorem add_maxEntries (c : SigCache) (d sg pk victim : Nat) :
    (c.Add d sg pk victim).maxEntries = c.maxEntries := by
  unfold SigCache.Add
  split <;> rfl

theorem add_length_le (c : SigCache) (d sg pk victim : Nat)
    (hinv : c.validSigs.length ≤ c.maxEntries)
    (hvic : 0 < c.maxEntries → c.maxEntries < c.validSigs.length + 1 →
      (mapLookup victim c.validSigs).isSome) :
    (c.Add d sg pk victim).validSigs.length ≤ c.maxEntries := by
  unfold SigCache.Add
  by_cases h0 : c.maxEntries ≤ 0
  · simpa [h0] using hinv
  · rw [if_neg h0]
    by_cases hfull : c.validSigs.length + 1 > c.maxEntries
    · have h1 := mapErase_length_add_one victim c.validSigs
        (hvic (by omega) (by omega))
      have h2 := mapErase_length_le d (mapErase victim c.validSigs)
      simp only [if_pos hfull, List.length_cons]
      omega
    · have h2 := mapErase_length_le d c.validSigs
      simp only [if_neg hfull, List.length_cons]
      omega

theorem headKeyPick_isSome (l : List (Nat × sigCacheEntry)) (h : l ≠ []) :
    (mapLookup (headKeyPick l) l).isSome := by
  match l with
  | [] => exact absurd rfl h
  | (k, e) :: es => simp [headKeyPick, mapLookup]

theorem runAdds_maxEntries (pick : List (Nat × sigCacheEntry) → Nat)
    (ops : List (Nat × Nat × Nat)) :
    ∀ c : SigCache, (runAdds pick c ops).maxEntries = c.maxEntries := by
  induction ops with
  | nil => intro c; rfl
  | cons op rest ih =>
    intro c
    obtain ⟨d, sg, pk⟩ := op
    show (runAdds pick (c.Add d sg pk (pick c.validSigs)) rest).maxEntries = _
    rw [ih, add_maxEntries]

theorem runAdds_length_le (pick : List (Nat × sigCacheEntry) → Nat)
    (hpick : ∀ l, l ≠ [] → (mapLookup (pick l) l).isSome)
    (ops : List (Nat × Nat × Nat)) :
    ∀ c : SigCache, c.validSigs.length ≤ c.maxEntries →
      (runAdds pick c ops).validSigs.length ≤ (runAdds pick c ops).maxEntries := by
  induction ops with
  | nil => intro c hc; exact hc
  | cons op rest ih =>
    intro c hc
    obtain ⟨d, sg, pk⟩ := op
    show (runAdds pick (c.Add d sg pk (pick c.validSigs)) rest).validSigs.length ≤ _
    apply ih
    rw [add_maxEntries]
    apply add_length_le c d sg pk _ hc
    intro hpos hfull
    apply hpick
    rw [← List.length_pos_iff_ne_nil]
    omega

/-! ## Claim theorems: SigCache -/

/-- C5 counterexample: with a zero-capacity cache, `Add` is a no-op, so the
lookup right after `add(d, s, k)` misses — the claim as stated fails. -/
theorem sigCache_exists_after_add_cex :
    ((NewSigCache 0).Add 7 3 4 0).Exists 7 3 4 = false := by decide

/-- C5 (amended: nonzero capacity): after `Add d s k`, `Exists d s k` is true,
and `Exists d s' k` for any signature different from the stored one is false
even though the digest matches. -/
theorem sigCache_exists_after_add (c : SigCache) (d sg pk victim : Nat)
    (hc : 0 < c.maxEntries) :
    ((c.Add d sg pk victim).Exists d sg pk = true) ∧
    ∀ sg' : Nat, sg' ≠ sg → (c.Add d sg pk victim).Exists d sg' pk = false := by
  have hne : ¬ c.maxEntries ≤ 0 := by omega
  constructor
  · simp [SigCache.Add, SigCache.Exists, mapLookup, hne]
  · intro sg' h
    simp [SigCache.Add, SigCache.Exists, mapLookup, hne, Ne.symm h]

/-- C5 witness. -/
theorem sigCache_exists_after_add_witness :
    0 < (NewSigCache 5).maxEntries ∧
    ((NewSigCache 5).Add 1 2 3 0).Exists 1 2 3 = true ∧
    ((NewSigCache 5).Add 1 2 3 0).Exists 1 9 3 = false :=
  ⟨by decide, (sigCache_exists_after_add (NewSigCache 5) 1 2 3 0 (by decide)).1,
    (sigCache_exists_after_add (NewSigCache 5) 1 2 3 0 (by decide)).2 9 (by decide)⟩

/-- C6: over any sequence of `Add` calls with any eviction strategy picking a
resident victim, the number of resident entries never exceeds the capacity;
`Add` on a zero-capacity cache is a no-op; and the eviction step removes
exactly one resident entry. -/
theorem sigCache_capacity_bound (max : Nat)
    (pick : List (Nat × sigCacheEntry) → Nat)
    (hpick : ∀ l, l ≠ [] → (mapLookup (pick l) l).isSome)
    (ops : List (Nat × Nat × Nat)) :
    ((runAdds pick (NewSigCache max) ops).validSigs.length ≤ max) ∧
    (∀ (c : SigCache) (d sg pk victim : Nat), c.maxEntries = 0 →
      c.Add d sg pk victim = c) ∧
    (∀ (c : SigCache) (victim : Nat), (mapLookup victim c.validSigs).isSome →
      (mapErase victim c.validSigs).length + 1 = c.validSigs.length) := by
  refine ⟨?_, ?_, ?_⟩
  · have h := runAdds_length_le pick hpick ops (NewSigCache max) (by simp [NewSigCache])
    have hm : (runAdds pick (NewSigCache max) ops).maxEntries = max :=
      runAdds_maxEntries pick ops (NewSigCache max)
    omega
  · intro c d sg pk victim h
    simp [SigCache.Add, h]
  · intro c victim h
    exact mapErase_length_add_one victim c.validSigs h

/-- C6 witness. -/
theorem sigCache_capacity_bound_witness :
    ((runAdds headKeyPick (NewSigCache 1) [(1, 1, 1), (2, 2, 2)]).validSigs.length ≤ 1) ∧
    ((NewSigCache 0).Add 5 6 7 8 = NewSigCache 0) ∧
    ((mapErase 1 [(1, ⟨1, 1⟩)]).length + 1
      = [((1 : Nat), (⟨1, 1⟩ : sigCacheEntry))].length) := by
  have T := sigCache_capacity_bound 1 headKeyPick headKeyPick_isSome [(1, 1, 1), (2, 2, 2)]
  exact ⟨T.1, T.2.1 (NewSigCache 0) 5 6 7 8 rfl, T.2.2 ⟨[(1, ⟨1, 1⟩)], 3⟩ 1 (by decide)⟩

/-! ## Helper lemmas: DynamicBanScore -/

theorem decayFactor_formula (t : ℤ) (ht : 0 ≤ t) :
    decayFactor t = Real.exp (-1 * (t : ℝ) * lambda) := by
  unfold decayFactor
  split
  · unfold precomputedFactor
    have hc : ((t.toNat : ℕ) : ℝ) = (t : ℝ) := by exact_mod_cast Int.toNat_of_nonneg ht
    rw [hc]
  · rfl

theorem decayFactor_eq_exp (t : ℤ) (ht : 0 ≤ t) :
    decayFactor t = Real.exp (-(t : ℝ) * Real.log 2 / 60) := by
  rw [decayFactor_formula t ht]
  congr 1
  simp only [lambda, Halflife]
  ring

theorem decayFactor_pow (k : ℕ) (t : ℤ) (ht0 : 0 ≤ t) (hk : (t : ℝ) = 60 * k) :
    decayFactor t = ((2 : ℝ) ^ k)⁻¹ := by
  rw [decayFactor_eq_exp t ht0, hk]
  rw [show -(60 * (k : ℝ)) * Real.log 2 / 60 = (k : ℝ) * (-Real.log 2) by ring]
  rw [Real.exp_nat_mul, Real.exp_neg, Real.exp_log (by norm_num : (0 : ℝ) < 2), inv_pow]

theorem trunc32_eval (x : ℝ) (n : ℕ) (h1 : (n : ℝ) ≤ x) (h2 : x < n + 1)
    (h3 : n < 2 ^ 32) : trunc32 x = n := by
  unfold trunc32
  have hf : ⌊x⌋ = (n : ℤ) := by
    rw [Int.floor_eq_iff]
    exact ⟨by exact_mod_cast h1, by exact_mod_cast h2⟩
  rw [hf, Int.toNat_natCast]
  exact Nat.mod_eq_of_lt h3

theorem int_eval_decay (lu : ℤ) (tr : ℝ) (p : ℕ) (t : ℤ)
    (h1 : ¬ tr < 1) (h2 : ¬ t - lu < 0) (h3 : ¬ Lifetime < t - lu) :
    DynamicBanScore.int ⟨lu, tr, p⟩ t
      = (p + trunc32 (tr * decayFactor (t - lu))) % 2 ^ 32 := by
  have h : ¬ (tr < 1 ∨ t - lu < 0 ∨ Lifetime < t - lu) := by
    intro hc
    exact hc.elim h1 (fun hc' => hc'.elim h2 h3)
  show (if tr < 1 ∨ t - lu < 0 ∨ Lifetime < t - lu then p
        else (p + trunc32 (tr * decayFactor (t - lu))) % 2 ^ 32) = _
  rw [if_neg h]

theorem int_eval_persistent (lu : ℤ) (tr : ℝ) (p : ℕ) (t : ℤ)
    (h : tr < 1 ∨ t - lu < 0 ∨ Lifetime < t - lu) :
    DynamicBanScore.int ⟨lu, tr, p⟩ t = p := by
  show (if tr < 1 ∨ t - lu < 0 ∨ Lifetime < t - lu then p
        else (p + trunc32 (tr * decayFactor (t - lu))) % 2 ^ 32) = _
  rw [if_pos h]

theorem increase_pos (s : DynamicBanScore) (pd td : ℕ) (t : ℤ) (h : 0 < td) :
    s.increase pd td t =
      (⟨t, (if Lifetime < t - s.lastUnix then 0
            else if 1 < s.transient ∧ 0 < t - s.lastUnix then
              s.transient * decayFactor (t - s.lastUnix)
            else s.transient) + (td : ℝ), (s.persistent + pd) % 2 ^ 32⟩,
       ((s.persistent + pd) % 2 ^ 32 +
        trunc32 ((if Lifetime < t - s.lastUnix then 0
            else if 1 < s.transient ∧ 0 < t - s.lastUnix then
              s.transient * decayFactor (t - s.lastUnix)
            else s.transient) + (td : ℝ))) % 2 ^ 32) := by
  show (if 0 < td then _ else _) = _
  rw [if_pos h]

theorem increase_zero (s : DynamicBanScore) (pd : ℕ) (t : ℤ) :
    s.increase pd 0 t =
      (⟨s.lastUnix, s.transient, (s.persistent + pd) % 2 ^ 32⟩,
       ((s.persistent + pd) % 2 ^ 32 + trunc32 s.transient) % 2 ^ 32) :=
  rfl

theorem increase_fresh (pd td : ℕ) (t0 : ℤ) (htd : 0 < td) :
    freshBanScore.increase pd td t0
      = (⟨t0, (td : ℝ), pd % 2 ^ 32⟩, (pd % 2 ^ 32 + trunc32 (td : ℝ)) % 2 ^ 32) := by
  rw [increase_pos freshBanScore pd td t0 htd]
  have hinner : (if (1 : ℝ) < freshBanScore.transient ∧ 0 < t0 - freshBanScore.lastUnix
      then freshBanScore.transient * decayFactor (t0 - freshBanScore.lastUnix)
      else freshBanScore.transient) = 0 :=
    if_neg (by rintro ⟨hc, -⟩; revert hc; show ¬ (1 : ℝ) < 0; norm_num)
  rw [hinner, ite_self]
  simp [freshBanScore]

/-! ## Claim theorems: DynamicBanScore -/

/-- C1: from the zero value, `increase(100, 50)` at any time `t0` returns 150;
the score one half-life (60 s) later is 125 and seven half-lives later is 100. -/
theorem banScore_decay_sequence (t0 : ℤ) :
    (freshBanScore.increase 100 50 t0).2 = 150 ∧
    ((freshBanScore.increase 100 50 t0).1).int (t0 + 60) = 125 ∧
    ((freshBanScore.increase 100 50 t0).1).int (t0 + 7 * 60) = 100 := by
  have hfresh := increase_fresh 100 50 t0 (by norm_num)
  have h50 : trunc32 (((50 : ℕ) : ℝ)) = 50 :=
    trunc32_eval _ 50 (by norm_num) (by norm_num) (by norm_num)
  refine ⟨?_, ?_, ?_⟩
  · rw [hfresh]
    show ((100 : ℕ) % 2 ^ 32 + trunc32 (((50 : ℕ) : ℝ))) % 2 ^ 32 = 150
    rw [h50]
    norm_num
  · rw [hfresh]
    show DynamicBanScore.int ⟨t0, ((50 : ℕ) : ℝ), 100 % 2 ^ 32⟩ (t0 + 60) = 125
    rw [int_eval_decay t0 _ _ _ (by norm_num) (by omega)
      (by simp only [Lifetime]; omega)]
    rw [show t0 + 60 - t0 = (60 : ℤ) by omega]
    rw [decayFactor_pow 1 60 (by norm_num) (by norm_num)]
    rw [trunc32_eval (((50 : ℕ) : ℝ) * ((2 : ℝ) ^ 1)⁻¹) 25 (by norm_num)
      (by norm_num) (by norm_num)]
    norm_num
  · rw [hfresh]
    show DynamicBanScore.int ⟨t0, ((50 : ℕ) : ℝ), 100 % 2 ^ 32⟩ (t0 + 7 * 60) = 100
    rw [int_eval_decay t0 _ _ _ (by norm_num) (by omega)
      (by simp only [Lifetime]; omega)]
    rw [show t0 + 7 * 60 - t0 = (420 : ℤ) by omega]
    rw [decayFactor_pow 7 420 (by norm_num) (by norm_num)]
    rw [trunc32_eval (((50 : ℕ) : ℝ) * ((2 : ℝ) ^ 7)⁻¹) 0 (by norm_num)
      (by norm_num) (by norm_num)]
    norm_num

/-- C2: from the zero value, after `increase(0, MaxUint32)` at `t0` the score
at the inclusive `Lifetime` boundary `t0 + 1800` is 3 (truncation of a value
just below 4), and one second past the boundary it is 0. -/
theorem banScore_lifetime_boundary (t0 : ℤ) :
    ((freshBanScore.increase 0 4294967295 t0).1).int (t0 + 1800) = 3 ∧
    ((freshBanScore.increase 0 4294967295 t0).1).int (t0 + 1801) = 0 := by
  have hfresh := increase_fresh 0 4294967295 t0 (by norm_num)
  constructor
  · rw [hfresh]
    show DynamicBanScore.int ⟨t0, ((4294967295 : ℕ) : ℝ), 0 % 2 ^ 32⟩ (t0 + 1800) = 3
    rw [int_eval_decay t0 _ _ _ (by norm_num) (by omega)
      (by simp only [Lifetime]; omega)]
    rw [show t0 + 1800 - t0 = (1800 : ℤ) by omega]
    rw [decayFactor_pow 30 1800 (by norm_num) (by norm_num)]
    rw [trunc32_eval (((4294967295 : ℕ) : ℝ) * ((2 : ℝ) ^ 30)⁻¹) 3 (by norm_num)
      (by norm_num) (by norm_num)]
    norm_num
  · rw [hfresh]
    show DynamicBanScore.int ⟨t0, ((4294967295 : ℕ) : ℝ), 0 % 2 ^ 32⟩ (t0 + 1801) = 0
    rw [int_eval_persistent t0 _ _ _
      (Or.inr (Or.inr (by simp only [Lifetime]; omega)))]
    norm_num

/-- C3: the evaluated score equals the persistent part alone when `dt < 0`,
`dt > Lifetime` or the transient is below 1, and otherwise the persistent part
plus `transient * exp(-dt * ln 2 / 60)` truncated, in unsigned addition. -/
theorem banScore_eval_spec (s : DynamicBanScore) (t : ℤ) :
    s.int t =
      if t - s.lastUnix < 0 ∨ Lifetime < t - s.lastUnix ∨ s.transient < 1
      then s.persistent
      else (s.persistent +
        trunc32 (s.transient *
          Real.exp (-((t - s.lastUnix : ℤ) : ℝ) * Real.log 2 / 60))) % 2 ^ 32 := by
  by_cases h : s.transient < 1 ∨ t - s.lastUnix < 0 ∨ Lifetime < t - s.lastUnix
  · rw [if_pos (by tauto)]
    show (if s.transient < 1 ∨ t - s.lastUnix < 0 ∨ Lifetime < t - s.lastUnix
          then s.persistent else _) = s.persistent
    rw [if_pos h]
  · rw [if_neg (by tauto)]
    show (if s.transient < 1 ∨ t - s.lastUnix < 0 ∨ Lifetime < t - s.lastUnix
          then s.persistent
          else (s.persistent + trunc32 (s.transient * decayFactor (t - s.lastUnix))) % 2 ^ 32)
        = _
    rw [if_neg h]
    push_neg at h
    rw [decayFactor_eq_exp (t - s.lastUnix) (by omega)]

/-- C7: for every nonnegative `t`, the decay factor — whether served from the
precomputed table (`t < 64`) or computed on demand — equals the single formula
`exp(-t * ln 2 / 60)`. -/
theorem banScore_decayFactor_consistent (t : ℤ) (ht : 0 ≤ t) :
    decayFactor t = Real.exp (-(t : ℝ) * Real.log 2 / 60) :=
  decayFactor_eq_exp t ht

/-- C7 witness: the on-demand path at `t = 100`. -/
theorem banScore_decayFactor_consistent_witness :
    (0 : ℤ) ≤ 100 ∧ decayFactor 100 = Real.exp (-((100 : ℤ) : ℝ) * Real.log 2 / 60) :=
  ⟨by norm_num, banScore_decayFactor_consistent 100 (by norm_num)⟩

/-- C8: after `Reset`, the score evaluates to 0 at every time, whatever the
prior history was. -/
theorem banScore_reset_zero (s : DynamicBanScore) (t : ℤ) :
    (s.Reset).int t = 0 := by
  have h : DynamicBanScore.Reset s = ⟨0, 0, 0⟩ := rfl
  rw [h]
  exact int_eval_persistent 0 0 0 t (Or.inl (by norm_num))

/-- C4: in every `increase` call the persistent part accumulates the delta
(in `uint32` arithmetic) unconditionally; with a nonzero transient delta,
`lastUnix` advances to `t`, the stored transient is discarded before adding
the delta when `dt > Lifetime`, and it is decayed first when `dt > 0` and it
exceeds 1. -/
theorem banScore_increase_semantics (s : DynamicBanScore) (pd td : ℕ) (t : ℤ) :
    ((s.increase pd td t).1.persistent = (s.persistent + pd) % 2 ^ 32) ∧
    (0 < td → (s.increase pd td t).1.lastUnix = t) ∧
    (0 < td → Lifetime < t - s.lastUnix →
      (s.increase pd td t).1.transient = (td : ℝ)) ∧
    (0 < td → ¬ Lifetime < t - s.lastUnix → 1 < s.transient → 0 < t - s.lastUnix →
      (s.increase pd td t).1.transient
        = s.transient * decayFactor (t - s.lastUnix) + (td : ℝ)) := by
  by_cases h : 0 < td
  · rw [increase_pos s pd td t h]
    refine ⟨rfl, fun _ => rfl, fun _ hlife => ?_, fun _ hlife h1 hdt => ?_⟩
    · show (if Lifetime < t - s.lastUnix then (0 : ℝ)
            else if 1 < s.transient ∧ 0 < t - s.lastUnix then
              s.transient * decayFactor (t - s.lastUnix)
            else s.transient) + (td : ℝ) = (td : ℝ)
      rw [if_pos hlife, zero_add]
    · show (if Lifetime < t - s.lastUnix then (0 : ℝ)
            else if 1 < s.transient ∧ 0 < t - s.lastUnix then
              s.transient * decayFactor (t - s.lastUnix)
            else s.transient) + (td : ℝ) = _
      rw [if_neg hlife, if_pos ⟨h1, hdt⟩]
  · have h0 : td = 0 := by omega
    subst h0
    rw [increase_zero]
    exact ⟨rfl, fun hc => absurd hc h, fun hc => absurd hc h, fun hc => absurd hc h⟩

/-- C4 witness: one call taking the stale-discard branch
(`dt = 2000 > Lifetime`) and one taking the decay branch (`dt = 10`). -/
theorem banScore_increase_semantics_witness :
    (((⟨0, 2, 5⟩ : DynamicBanScore).increase 1 1 2000).1.persistent
       = (5 + 1) % 2 ^ 32) ∧
    (((⟨0, 2, 5⟩ : DynamicBanScore).increase 1 1 2000).1.lastUnix = 2000) ∧
    (((⟨0, 2, 5⟩ : DynamicBanScore).increase 1 1 2000).1.transient = ((1 : ℕ) : ℝ)) ∧
    (((⟨0, 2, 5⟩ : DynamicBanScore).increase 1 1 10).1.transient
       = (2 : ℝ) * decayFactor (10 - 0) + ((1 : ℕ) : ℝ)) :=
  ⟨(banScore_increase_semantics ⟨0, 2, 5⟩ 1 1 2000).1,
   (banScore_increase_semantics ⟨0, 2, 5⟩ 1 1 2000).2.1 (by norm_num),
   (banScore_increase_semantics ⟨0, 2, 5⟩ 1 1 2000).2.2.1 (by norm_num)
     (by show (1800 : ℤ) < 2000 - 0; norm_num),
   (banScore_increase_semantics ⟨0, 2, 5⟩ 1 1 10).2.2.2 (by norm_num)
     (by show ¬ (1800 : ℤ) < 10 - 0; norm_num)
     (by show (1 : ℝ) < 2; norm_num)
     (by show (0 : ℤ) < 10 - 0; norm_num)⟩

/-- C9 counterexample: at persistent = MaxUint32, `increase(1, 0, _)` wraps
the `uint32` persistent component around to 0, strictly decreasing it. -/
theorem banScore_increase_wraps :
    ((⟨0, 0, 4294967295⟩ : DynamicBanScore).increase 1 0 0).1.persistent
      < (⟨0, 0, 4294967295⟩ : DynamicBanScore).persistent := by
  rw [increase_zero]
  show (4294967295 + 1) % 2 ^ 32 < 4294967295
  norm_num

/-- C9 (amended: no `uint32` overflow): when the persistent addition stays
below `2^32`, `increase` never decreases the persistent component. -/
theorem banScore_increase_persistent_mono (s : DynamicBanScore) (pd td : ℕ)
    (t : ℤ) (h : s.persistent + pd < 2 ^ 32) :
    s.persistent ≤ (s.increase pd td t).1.persistent := by
  by_cases h0 : 0 < td
  · rw [increase_pos s pd td t h0]
    show s.persistent ≤ (s.persistent + pd) % 2 ^ 32
    rw [Nat.mod_eq_of_lt h]
    omega
  · have h1 : td = 0 := by omega
    subst h1
    rw [increase_zero]
    show s.persistent ≤ (s.persistent + pd) % 2 ^ 32
    rw [Nat.mod_eq_of_lt h]
    omega

/-- C9 witness. -/
theorem banScore_increase_persistent_mono_witness :
    freshBanScore.persistent + 5 < 2 ^ 32 ∧
    freshBanScore.persistent ≤ ((freshBanScore.increase 5 0 0).1).persistent :=
  ⟨by norm_num [freshBanScore],
   banScore_increase_persistent_mono freshBanScore 5 0 0 (by norm_num [freshBanScore])⟩

/-- C10: `increase` with a zero transient delta leaves the transient and
`lastUnix` untouched and returns the new persistent part plus the stored
transient truncated with no decay applied — which can exceed the score a
`int` evaluation at the same time reports, as the concrete state with a
transient older than `Lifetime` shows. -/
theorem banScore_increase_zero_frame (s : DynamicBanScore) (pd : ℕ) (t : ℤ) :
    ((s.increase pd 0 t).1.transient = s.transient) ∧
    ((s.increase pd 0 t).1.lastUnix = s.lastUnix) ∧
    ((s.increase pd 0 t).2
       = ((s.persistent + pd) % 2 ^ 32 + trunc32 s.transient) % 2 ^ 32) ∧
    (((⟨0, 50, 0⟩ : DynamicBanScore).increase 0 0 2000).2
       > (((⟨0, 50, 0⟩ : DynamicBanScore).increase 0 0 2000).1).int 2000) := by
  refine ⟨?_, ?_, ?_, ?_⟩
  · rw [increase_zero]
  · rw [increase_zero]
  · rw [increase_zero]
  · rw [increase_zero (⟨0, 50, 0⟩ : DynamicBanScore) 0 2000]
    have h2 : trunc32 ((50 : ℝ)) = 50 :=
      trunc32_eval _ 50 (by norm_num) (by norm_num) (by norm_num)
    have h3 := int_eval_persistent 0 50 ((0 + 0) % 2 ^ 32) 2000
      (Or.inr (Or.inr (by simp only [Lifetime]; omega)))
    show ((0 + 0) % 2 ^ 32 + trunc32 ((50 : ℝ))) % 2 ^ 32
        > DynamicBanScore.int ⟨0, 50, (0 + 0) % 2 ^ 32⟩ 2000
    rw [h2, h3]
    norm_num
